import Mathlib

/-!
Verification of the Binary Fusion Tap derivation pipeline
(src/examples/binary_fusion_tap.c).

The C program is embedded shallowly: machine integers become `Nat`
with explicit reduction modulo `2 ^ 64` where the C arithmetic wraps,
the C `int` parameter `k` becomes `Int`, and the C library call
`strtoull` is modelled by its standard semantics (decimal parse that
returns `ULLONG_MAX` when the value is out of range).  The recursive
printer `print_binary` becomes a string-valued function.
-/

namespace BinaryFusionTap

/-- Modulus of `uint64_t` arithmetic. -/
def UINT64_MOD : Nat := 2 ^ 64

/-- Conversion of the C `int` value `k` to `uint64_t`, as performed by the
usual arithmetic conversions: reduction modulo `2 ^ 64` into `[0, 2^64)`. -/
def toU64 (i : Int) : Nat := (i % (UINT64_MOD : Int)).toNat

/-- One step of decimal parsing: shift the accumulator and add the digit
value of the character (`'0'` has code 48). -/
def decStep (acc : Nat) (c : Char) : Nat := acc * 10 + (c.toNat - 48)

/-- Value of a string of decimal digits, most significant first. -/
def parseDecimal (s : String) : Nat := s.data.foldl decStep 0

/-- Semantics of `strtoull(s, NULL, 10)` on a string of decimal digits:
the parsed value, except that a value out of the `unsigned long long`
range is reported as `ULLONG_MAX = 2 ^ 64 - 1` (C17 7.22.1.4p8).
An empty string has no digits and parses to 0. -/
def strtoull10 (s : String) : Nat :=
  let v := parseDecimal s
  if v < UINT64_MOD then v else UINT64_MOD - 1

/-- The decimal concatenation `"1" ++ "2" ++ ... ++ toString n` built by the
loop in `generate_seed` (`sprintf` of each `i` followed by `strcat`).
For `n = 0` the loop body never runs and the buffer stays empty. -/
def concatDecimal : Nat → String
  | 0 => ""
  | n + 1 => concatDecimal n ++ toString (n + 1)

/-- Embedding of `generate_seed` (src/examples/binary_fusion_tap.c:25):
build the concatenation of the decimal texts of `1..k` (no iterations when
`k ≤ 0`, so the zero-initialised buffer stays `""`) and parse it with
`strtoull` in base 10. -/
def generate_seed (k : Int) : Nat := strtoull10 (concatDecimal k.toNat)

/-- Embedding of the C struct `BinaryFusionResult`. -/
structure BinaryFusionResult where
  k : Int
  seed_value : Nat
  tap_state : Nat
  zpe_overflow : Nat
  deriving DecidableEq, Repr

/-- Embedding of `binary_fusion_tap` (src/examples/binary_fusion_tap.c:41):
seed generation, the 8-fold heartbeat `seed_value << 3` (wrapping at
`2 ^ 64`), the phase offset `+ k` (with `k` converted to `uint64_t`,
wrapping addition), and the gated ZPE overflow extraction. -/
def binary_fusion_tap (k : Int) : BinaryFusionResult :=
  let seed_value := generate_seed k
  let heartbeat_val := (seed_value <<< 3) % UINT64_MOD
  let tap_state := (heartbeat_val + toU64 k) % UINT64_MOD
  let zpe_overflow :=
    if k < 10 then 0
    else tap_state ^^^ (seed_value * 8 % UINT64_MOD)
  { k := k, seed_value := seed_value, tap_state := tap_state,
    zpe_overflow := zpe_overflow }

/-- Embedding of `print_binary` (src/examples/binary_fusion_tap.c:67):
recurse on `n / 2` while `n > 1`, then emit the digit `n % 2`.  The printed
characters are collected into a string. -/
def print_binary (n : Nat) : String :=
  if h : 1 < n then print_binary (n / 2) ++ toString (n % 2)
  else toString (n % 2)
  decreasing_by exact Nat.div_lt_self (by omega) (by omega)

/-- Fuel-bounded variant of `print_binary`: `none` when the recursion would
need more than `fuel` nested calls.  Used to express that the recursion of
the C function is well-founded and shallow on 64-bit inputs. -/
def print_binary_fuel : Nat → Nat → Option String
  | 0, _ => none
  | fuel + 1, n =>
    if 1 < n then
      match print_binary_fuel fuel (n / 2) with
      | none => none
      | some s => some (s ++ toString (n % 2))
    else some (toString (n % 2))

/-- One step of base-2 parsing of a digit character. -/
def binStep (acc : Nat) (c : Char) : Nat := acc * 2 + (c.toNat - 48)

/-- Value of a string of binary digits, most significant first. -/
def parseBin2 (s : String) : Nat := s.data.foldl binStep 0

/-- The exact (arbitrary-precision) value of the decimal numeral obtained
by concatenating `1..k`; spec-side definition, used to compare the seed
the code produces with the mathematically true concatenated numeral. -/
def trueNumeral (k : Nat) : Nat := parseDecimal (concatDecimal k)

/-- The text written to standard output by `main`
(src/examples/binary_fusion_tap.c:74): the four `printf` lines, with
`tap_state` and `zpe_overflow` rendered by `print_binary`. -/
def mainOutput : String :=
  let result := binary_fusion_tap 11
  "K Parameter: " ++ toString result.k ++ "\n" ++
  "Seed Value: " ++ toString result.seed_value ++ "\n" ++
  "Tap State: 0b" ++ print_binary result.tap_state ++ "\n" ++
  "ZPE Overflow: 0b" ++ print_binary result.zpe_overflow ++
  " (decimal: " ++ toString result.zpe_overflow ++ ")\n"

/-- Unfolding of `print_binary` in the base case `n ≤ 1`. -/
lemma print_binary_of_le {n : Nat} (h : n ≤ 1) :
    print_binary n = toString (n % 2) := by
  rw [print_binary, dif_neg (by omega)]

/-- Unfolding of `print_binary` in the recursive case `1 < n`. -/
lemma print_binary_of_lt {n : Nat} (h : 1 < n) :
    print_binary n = print_binary (n / 2) ++ toString (n % 2) := by
  rw [print_binary]
  rw [dif_pos h]

/-- The characters of an appended string are the appended character
lists. -/
lemma string_data_append (s t : String) : (s ++ t).data = s.data ++ t.data :=
  rfl

/-- The digit printed for `n % 2` is the single character `'0'` or `'1'`. -/
lemma toString_mod_two_data (n : Nat) :
    (toString (n % 2)).data = [if n % 2 = 0 then '0' else '1'] := by
  rcases Nat.mod_two_eq_zero_or_one n with hm | hm <;> rw [hm] <;> rfl

/-- Folding the base-2 parse step over the digit printed for `n % 2`
doubles the accumulator and adds `n % 2`. -/
lemma foldl_binStep_digit (a n : Nat) :
    List.foldl binStep a (toString (n % 2)).data = a * 2 + n % 2 := by
  rcases Nat.mod_two_eq_zero_or_one n with hm | hm <;> rw [hm] <;> rfl

/-- With fuel exceeding the bit length of `n`, the fuel-bounded printer
agrees with `print_binary`. -/
lemma print_binary_fuel_spec :
    ∀ fuel n : Nat, 0 < fuel → n < 2 ^ fuel →
      print_binary_fuel fuel n = some (print_binary n) := by
  intro fuel
  induction fuel with
  | zero => omega
  | succ f ih =>
    intro n _ hn
    by_cases h : 1 < n
    · have hf : 0 < f := by
        rcases Nat.eq_zero_or_pos f with hf0 | hf0
        · subst hf0; simp at hn; omega
        · exact hf0
      have hdiv : n / 2 < 2 ^ f := by
        have := Nat.pow_succ 2 f
        omega
      rw [print_binary_fuel, if_pos h, ih (n / 2) hf hdiv,
        print_binary_of_lt h]
    · rw [print_binary_fuel, if_neg h, print_binary_of_le (by omega)]

/-- Evaluation bridge: a concrete run of the fuel-bounded printer
determines the value of `print_binary`. -/
lemma print_binary_closed {n : Nat} {s : String} (hn : n < 2 ^ 64)
    (h : print_binary_fuel 64 n = some s) : print_binary n = s := by
  have h2 := print_binary_fuel_spec 64 n (by omega) hn
  rw [h] at h2
  exact (Option.some.inj h2).symm

/-- Parsing the printed binary string back in base 2 recovers `n`. -/
lemma parseBin2_print_binary (n : Nat) : parseBin2 (print_binary n) = n := by
  induction n using Nat.strong_induction_on with
  | _ n ih =>
    by_cases h : 1 < n
    · rw [print_binary_of_lt h]
      have hrec := ih (n / 2) (Nat.div_lt_self (by omega) (by omega))
      rw [parseBin2] at hrec
      rw [parseBin2, string_data_append, List.foldl_append, hrec,
        foldl_binStep_digit]
      omega
    · have h01 : n = 0 ∨ n = 1 := by omega
      rcases h01 with h0 | h1
      · subst h0; rw [parseBin2, print_binary_of_le (by omega)]; rfl
      · subst h1; rw [parseBin2, print_binary_of_le (by omega)]; rfl

/-- Every character printed by `print_binary` is a binary digit. -/
lemma print_binary_digits (n : Nat) :
    ∀ c ∈ (print_binary n).data, c = '0' ∨ c = '1' := by
  induction n using Nat.strong_induction_on with
  | _ n ih =>
    by_cases h : 1 < n
    · rw [print_binary_of_lt h, string_data_append]
      intro c hc
      rcases List.mem_append.mp hc with hc1 | hc2
      · exact ih (n / 2) (Nat.div_lt_self (by omega) (by omega)) c hc1
      · rw [toString_mod_two_data] at hc2
        rcases Nat.mod_two_eq_zero_or_one n with hm | hm <;>
          simp [hm] at hc2 <;> simp [hc2]
    · have h01 : n = 0 ∨ n = 1 := by omega
      rcases h01 with h0 | h1
      · subst h0; rw [print_binary_of_le (by omega)]; decide
      · subst h1; rw [print_binary_of_le (by omega)]; decide

/-- For positive `n` the printed string starts with the digit `'1'`:
there is no leading zero. -/
lemma print_binary_head (n : Nat) (h : 0 < n) :
    ∃ t, (print_binary n).data = '1' :: t := by
  induction n using Nat.strong_induction_on with
  | _ n ih =>
    by_cases h2 : 1 < n
    · rw [print_binary_of_lt h2, string_data_append]
      obtain ⟨t, ht⟩ := ih (n / 2) (Nat.div_lt_self (by omega) (by omega))
        (by omega)
      exact ⟨t ++ (toString (n % 2)).data, by rw [ht]; rfl⟩
    · have h1 : n = 1 := by omega
      subst h1
      rw [print_binary_of_le (by omega)]
      exact ⟨[], rfl⟩

/-- Zero prints as the single character string. -/
lemma print_binary_zero : print_binary 0 = "0" := by
  rw [print_binary_of_le (by omega)]
  rfl

/-- Folding the decimal parse step starting from accumulator `a` shifts
`a` by the length of the digit list. -/
lemma foldl_decStep_shift (l : List Char) (a : Nat) :
    l.foldl decStep a = a * 10 ^ l.length + l.foldl decStep 0 := by
  induction l generalizing a with
  | nil => simp
  | cons c l ih =>
    rw [List.foldl_cons, List.foldl_cons, ih (decStep a c), ih (decStep 0 c)]
    simp only [decStep, List.length_cons]
    ring

/-- Appending one more decimal block never decreases the parsed value. -/
lemma parseDecimal_concat_le_succ (n : Nat) :
    parseDecimal (concatDecimal n) ≤ parseDecimal (concatDecimal (n + 1)) := by
  show parseDecimal (concatDecimal n) ≤
    parseDecimal (concatDecimal n ++ toString (n + 1))
  rw [parseDecimal, parseDecimal]
  rw [show (concatDecimal n ++ toString (n + 1)).data =
    (concatDecimal n).data ++ (toString (n + 1)).data from rfl]
  rw [List.foldl_append, foldl_decStep_shift ((toString (n + 1)).data)]
  have h1 : 1 ≤ (10 : Nat) ^ (toString (n + 1)).data.length :=
    Nat.one_le_pow _ _ (by omega)
  calc (concatDecimal n).data.foldl decStep 0
      ≤ (concatDecimal n).data.foldl decStep 0 *
          10 ^ (toString (n + 1)).data.length := Nat.le_mul_of_pos_right _ h1
    _ ≤ _ := Nat.le_add_right _ _

/-- The value of the concatenated numeral is monotone in `k`. -/
lemma parseDecimal_concat_mono {m n : Nat} (h : m ≤ n) :
    parseDecimal (concatDecimal m) ≤ parseDecimal (concatDecimal n) := by
  induction n with
  | zero => simp_all
  | succ n ih =>
    rcases Nat.lt_or_ge m (n + 1) with hlt | hge
    · exact le_trans (ih (by omega)) (parseDecimal_concat_le_succ n)
    · have : m = n + 1 := by omega
      subst this
      exact le_refl _

/-- C1: for every `k`, `binary_fusion_tap` yields `zpe_overflow = 0` when
`k < 10`, and `zpe_overflow = tap_state XOR (seed_value * 8 mod 2^64)`
when `k ≥ 10`. -/
theorem overflow_gating (k : Int) :
    (binary_fusion_tap k).zpe_overflow =
      if k < 10 then 0
      else (binary_fusion_tap k).tap_state ^^^
        ((binary_fusion_tap k).seed_value * 8 % UINT64_MOD) := by
  simp only [binary_fusion_tap]

/-- C2: for every `k` (negative included), `tap_state` is
`(seed_value * 2^3 + k)` reduced modulo `2^64`, with unsigned wraparound
semantics — stated over `Int`, where `%` with a positive modulus is the
nonnegative residue. -/
theorem tap_transform_identity (k : Int) :
    ((binary_fusion_tap k).tap_state : Int) =
      (((binary_fusion_tap k).seed_value : Int) * 2 ^ 3 + k) % 2 ^ 64 := by
  simp only [binary_fusion_tap, toU64, UINT64_MOD, Nat.shiftLeft_eq]
  norm_num
  omega

/-- C3 (counterexample): at `k = 16` the seed is not the low 64 bits of
the true concatenated numeral: `strtoull` saturates at `2^64 - 1` instead
of truncating modulo `2^64`. -/
theorem seed_truncation_counterexample :
    ¬ (generate_seed 16 = trueNumeral 16 % 2 ^ 64) := by decide

/-- C3 (amended): for `16 ≤ k ≤ 121` (the range in which the 256-byte
scratch buffer holds the concatenation), the concatenated numeral exceeds
`2^64 - 1` and `generate_seed` returns the saturated value `2^64 - 1`. -/
theorem seed_saturates (k : Int) (h1 : 16 ≤ k) (h2 : k ≤ 121) :
    generate_seed k = 2 ^ 64 - 1 := by
  have h16 : (2 : Nat) ^ 64 - 1 < parseDecimal (concatDecimal 16) := by decide
  have hmono : parseDecimal (concatDecimal 16) ≤
      parseDecimal (concatDecimal k.toNat) :=
    parseDecimal_concat_mono (by omega)
  rw [generate_seed, strtoull10]
  simp only [UINT64_MOD]
  rw [if_neg (by omega)]

/-- Witness for the amended C3 at `k = 20`. -/
theorem seed_saturates_witness :
    (16 : Int) ≤ 20 ∧ (20 : Int) ≤ 121 ∧ generate_seed 20 = 2 ^ 64 - 1 :=
  ⟨by norm_num, by norm_num, seed_saturates 20 (by norm_num) (by norm_num)⟩

/-- C4: the reference invocation `k = 11` produces exactly
`seed_value = 1234567891011`, `tap_state = 9876543128099` and
`zpe_overflow = 59`. -/
theorem reference_scenario_k11 :
    (binary_fusion_tap 11).seed_value = 1234567891011 ∧
    (binary_fusion_tap 11).tap_state = 9876543128099 ∧
    (binary_fusion_tap 11).zpe_overflow = 59 := by decide

/-- C5: for every `k ≤ 0` the seed is 0 (the empty concatenation parses
to zero), and at `k = 0` the whole pipeline yields all-zero fields. -/
theorem nonpositive_seed (k : Int) (h : k ≤ 0) :
    generate_seed k = 0 ∧
    (binary_fusion_tap 0).seed_value = 0 ∧
    (binary_fusion_tap 0).tap_state = 0 ∧
    (binary_fusion_tap 0).zpe_overflow = 0 := by
  refine ⟨?_, by decide, by decide, by decide⟩
  have hk : k.toNat = 0 := Int.toNat_of_nonpos h
  rw [generate_seed, hk]
  decide

/-- Witness for C5 at `k = -3`. -/
theorem nonpositive_seed_witness :
    (-3 : Int) ≤ 0 ∧
      (generate_seed (-3) = 0 ∧
       (binary_fusion_tap 0).seed_value = 0 ∧
       (binary_fusion_tap 0).tap_state = 0 ∧
       (binary_fusion_tap 0).zpe_overflow = 0) :=
  ⟨by norm_num, nonpositive_seed (-3) (by norm_num)⟩

/-- C6: for every unsigned 64-bit `n`, the string printed by
`print_binary` parses back in base 2 to `n`, consists only of binary
digits (MSB first), starts with `'1'` when `n > 0` (no leading zero), and
is exactly the one-character string for `n = 0`. -/
theorem formatter_round_trip (n : Nat) (h : n < 2 ^ 64) :
    parseBin2 (print_binary n) = n ∧
    (∀ c ∈ (print_binary n).data, c = '0' ∨ c = '1') ∧
    (0 < n → (print_binary n).data.head? = some '1') ∧
    (n = 0 → print_binary n = "0") := by
  refine ⟨parseBin2_print_binary n, print_binary_digits n, ?_, ?_⟩
  · intro hpos
    obtain ⟨t, ht⟩ := print_binary_head n hpos
    rw [ht]
    rfl
  · intro h0
    subst h0
    exact print_binary_zero

/-- Witness for C6 at `n = 5`. -/
theorem formatter_round_trip_witness :
    5 < 2 ^ 64 ∧
      (parseBin2 (print_binary 5) = 5 ∧
       (∀ c ∈ (print_binary 5).data, c = '0' ∨ c = '1') ∧
       (0 < 5 → (print_binary 5).data.head? = some '1') ∧
       (5 = 0 → print_binary 5 = "0")) :=
  ⟨by norm_num, formatter_round_trip 5 (by norm_num)⟩

/-- C7: the recursion of `print_binary` is well-founded and needs at most
64 nested calls on any unsigned 64-bit input: with fuel 64 the bounded
printer completes and agrees with `print_binary`. -/
theorem print_binary_terminates (n : Nat) (h : n < 2 ^ 64) :
    print_binary_fuel 64 n = some (print_binary n) :=
  print_binary_fuel_spec 64 n (by norm_num) h

/-- Witness for C7 at the maximum 64-bit value. -/
theorem print_binary_terminates_witness :
    2 ^ 64 - 1 < 2 ^ 64 ∧
      print_binary_fuel 64 (2 ^ 64 - 1) = some (print_binary (2 ^ 64 - 1)) :=
  ⟨by norm_num, print_binary_terminates (2 ^ 64 - 1) (by norm_num)⟩

/-- C8: the report written to standard output is exactly the four lines
`K Parameter: <k>`, `Seed Value: <decimal>`, `Tap State: 0b<binary>`,
`ZPE Overflow: 0b<binary> (decimal: <decimal>)`, in that order. -/
theorem main_output_format :
    mainOutput = "K Parameter: 11\nSeed Value: 1234567891011\n" ++
      "Tap State: 0b10001111101110001111110110000100001000100011\n" ++
      "ZPE Overflow: 0b111011 (decimal: 59)\n" := by
  have hres : binary_fusion_tap 11 =
      ⟨11, 1234567891011, 9876543128099, 59⟩ := by decide
  have htap : print_binary 9876543128099 =
      "10001111101110001111110110000100001000100011" :=
    print_binary_closed (by norm_num) (by decide)
  have hzpe : print_binary 59 = "111011" :=
    print_binary_closed (by norm_num) (by decide)
  rw [mainOutput, hres]
  simp only
  rw [htap, hzpe]
  rfl

/-- C9: the low three bits of `tap_state` encode `k mod 8`: the heartbeat
shift leaves the low three bits of `seed_value << 3` zero, so only the
phase offset contributes there (with `k` reduced modulo `2^64` to an
unsigned value first). -/
theorem tap_state_low_bits (k : Int) :
    (binary_fusion_tap k).tap_state % 8 = toU64 k % 8 ∧
    toU64 k % 8 = (k % 8).toNat := by
  simp only [binary_fusion_tap, toU64, UINT64_MOD, Nat.shiftLeft_eq]
  norm_num
  omega

/-- C10: in the active regime (`k ≥ 10`, within the range of the C `int`
parameter) the overflow signal is never zero: the nonzero phase offset
makes `tap_state` differ from `seed_value * 8` modulo `2^64`. -/
theorem active_overflow_nonzero (k : Int) (h1 : 10 ≤ k) (h2 : k < 2 ^ 31) :
    (binary_fusion_tap k).zpe_overflow ≠ 0 := by
  simp only [binary_fusion_tap, toU64, UINT64_MOD, Nat.shiftLeft_eq]
  rw [if_neg (by omega)]
  intro hzero
  rw [Nat.xor_eq_zero] at hzero
  omega

/-- Witness for C10 at `k = 11`. -/
theorem active_overflow_nonzero_witness :
    (10 : Int) ≤ 11 ∧ (11 : Int) < 2 ^ 31 ∧
      (binary_fusion_tap 11).zpe_overflow ≠ 0 :=
  ⟨by norm_num, by norm_num,
    active_overflow_nonzero 11 (by norm_num) (by norm_num)⟩

end BinaryFusionTap
